import Mathlib

/-!
Verification of the dbrew test runner (`tests/test.py`).

The Python source is shallowly embedded below.  Python strings are modelled
as `List Char`; a captured output stream is a list of such strings (one per
line).  External behaviour (the compiler subprocess, the test binary, filter
scripts, the file system) is abstracted into an `Env` record that fixes, for
one test case, everything the world answers back to the script; the phase
methods of `TestCase` become state-transition functions over that record.
-/

namespace DbrewTest

/-! ## The embedded model of tests/test.py -/

/-- A Python string, modelled as its list of characters. -/
abbrev Str := List Char

/-- Prepend a character onto the first line of a line list, starting a fresh
line when the list is empty.  Helper for the line-splitting functions. -/
def consHead (c : Char) : List Str → List Str
  | [] => [[c]]
  | l :: ls => (c :: l) :: ls

/-- Model of Python `bytes.splitlines`: split on any of `\n`, `\r\n`, `\r`,
dropping the terminators, with no trailing empty line.  Used by
`Utils.execBuffered` (test.py lines 38 and 44) and by the filter pipeline
(test.py line 154). -/
def splitlines : Str → List Str
  | [] => []
  | '\n' :: rest => [] :: splitlines rest
  | '\r' :: '\n' :: rest => [] :: splitlines rest
  | '\r' :: rest => [] :: splitlines rest
  | c :: rest => consHead c (splitlines rest)

/-- Model of Python text-mode `file.readlines()` with universal newlines:
`\r\n` and `\r` read as `\n`, lines are split after each `\n` keeping the
terminator, and a final unterminated line is kept without one.  Used by
`TestCase.test` (test.py lines 179 and 194). -/
def pyReadlines : Str → List Str
  | [] => []
  | '\n' :: rest => ['\n'] :: pyReadlines rest
  | '\r' :: '\n' :: rest => ['\n'] :: pyReadlines rest
  | '\r' :: rest => ['\n'] :: pyReadlines rest
  | c :: rest => consHead c (pyReadlines rest)

/-- A stream line as the embedded script produces it: some terminator-free
segment followed by a single `\n`. -/
def cleanLine (l : Str) : Prop := ∃ seg, l = seg ++ ['\n'] ∧ '\n' ∉ seg ∧ '\r' ∉ seg

/-- The internal debug marker prefix. -/
def dbgMarker : Str := ['!', 'D', 'B', 'G']

/-- The per-line test of `Utils.execBuffered` (test.py lines 40 and 46):
`len(out) >= 4 and out[:4] == "!DBG"`. -/
def isDbg (l : Str) : Bool := 4 ≤ l.length && l.take 4 == dbgMarker

/-- The output loops of `Utils.execBuffered` (test.py lines 37-41 and 43-47):
skip debug-marked lines, append a newline to every kept line. -/
def dbgFilterLoop : List Str → List Str
  | [] => []
  | out :: rest =>
      if isDbg out then dbgFilterLoop rest
      else (out ++ ['\n']) :: dbgFilterLoop rest

/-- A captured stream as `execBuffered` builds it from the raw bytes of one
subprocess stream. -/
def dbgLines (raw : Str) : List Str := dbgFilterLoop (splitlines raw)

/-- Model of `Utils.execBuffered` (test.py lines 33-49).  The subprocess
itself is external: its exit code and the raw bytes of its two streams are
inputs; the function returns the exit code and both line-split,
debug-filtered streams. -/
def execBuffered (exitCode : Int) (rawOut rawErr : Str) :
    Int × List Str × List Str :=
  (exitCode, dbgLines rawOut, dbgLines rawErr)

/-- Python whitespace, as stripped by `str.strip()`. -/
def isPySpace (c : Char) : Bool :=
  c == ' ' || c == '\t' || c == '\n' || c == '\r' || c == '\x0b' || c == '\x0c'

/-- Model of Python `str.strip()`. -/
def pyStrip (s : Str) : Str :=
  ((s.dropWhile isPySpace).reverse.dropWhile isPySpace).reverse

/-- Model of `s.split("=", 1)`: the text before the first `=` together with
the text after it, or `none` in the second component when the string has no
`=` (in which case Python returns a one-element list and the scripts
subsequent `split[1]` raises IndexError). -/
def splitEq : Str → Str × Option Str
  | [] => ([], none)
  | '=' :: rest => ([], some rest)
  | c :: rest => ((c :: (splitEq rest).1), (splitEq rest).2)

/-- The header-line test of test.py line 25:
`len(argLine) >= 4 and argLine[:3] == "//!"`. -/
def headerMatches (line : Str) : Bool :=
  4 ≤ line.length && line.take 3 == ['/', '/', '!']

/-- Python dict insertion: overwrite in place if the key is present,
otherwise append. -/
def insertProp (m : List (Str × Str)) (k v : Str) : List (Str × Str) :=
  if m.any (fun p => p.1 == k) then
    m.map (fun p => if p.1 == k then (k, v) else p)
  else m ++ [(k, v)]

/-- The key stored for a matching header line (test.py line 27):
`split[0].lower().strip()`. -/
def keyOf (line : Str) : Str :=
  pyStrip ((splitEq (line.drop 3)).1.map Char.toLower)

/-- The value stored for a matching header line (test.py line 27):
`split[1][:-1].strip()` when the line has an `=` after the marker. -/
def valOf (line : Str) : Str :=
  pyStrip (((splitEq (line.drop 3)).2.getD []).dropLast)

/-- Model of `Utils.fetchProperties` (test.py lines 16-30): consume leading
lines while each matches the marker, splitting each on the first `=`; a
matching line without an `=` makes `split[1]` raise IndexError, modelled as
`none`.  The accumulator is the dict built so far. -/
def fetchProperties : List Str → List (Str × Str) → Option (List (Str × Str))
  | [], props => some props
  | line :: rest, props =>
      if headerMatches line then
        match (splitEq (line.drop 3)).2 with
        | some _ => fetchProperties rest (insertProp props (keyOf line) (valOf line))
        | none => none
      else some props

/-- The leading block of marker-matching lines, as the claims describe it. -/
def hdrLines (file : List Str) : List Str := file.takeWhile headerMatches

/-- The mapping the spec describes for a well-formed header: fold the
matching lines into the dict in order. -/
def specProps (file : List Str) : List (Str × Str) :=
  (hdrLines file).foldl (fun m l => insertProp m (keyOf l) (valOf l)) []

/-- The six status constants of `TestCase` (test.py lines 53-58). -/
inductive Status
  | waiting
  | compiled
  | executed
  | success
  | failed
  | ignored
deriving DecidableEq, Repr

/-- Position of a status in the forward order
WAITING < COMPILED < EXECUTED < {SUCCESS, FAILED, IGNORED}. -/
def Status.rank : Status → Nat
  | .waiting => 0
  | .compiled => 1
  | .executed => 2
  | .success => 3
  | .failed => 3
  | .ignored => 3

/-- Status `a` then later `b` is a forward move: unchanged, or strictly higher in
the order (a terminal status can therefore never change at all). -/
def Status.leF (a b : Status) : Prop := a = b ∨ a.rank < b.rank

/-- The two control-flow exceptions (test.py lines 11-12). -/
inductive Sig
  | fail
  | ignore
deriving DecidableEq, Repr

/-- The external side effects a phase can perform, named as claim C1 lists
them; the two filter subprocesses belong to the run phase. -/
inductive Effect
  | compilerProc
  | runProc
  | outFilterProc
  | errFilterProc
  | comparePhase
  | storeWrite
  | printOut
deriving DecidableEq, Repr, Fintype

/-- The step of the order at which an effect fires: an effect is only
performed from a state of strictly lower rank and always leaves the state at
this rank or beyond, which is what makes each effect one-shot. -/
def Effect.thr : Effect → Nat
  | .compilerProc => 1
  | .runProc => 2
  | .outFilterProc => 2
  | .errFilterProc => 2
  | .comparePhase => 3
  | .storeWrite => 3
  | .printOut => 3

/-- Everything the world answers back to one test case. -/
structure Env where
  /-- whether `re.search('^(cc|gcc|clang)', cc)` matches (test.py line 101) -/
  ccSupported : Bool
  /-- exit code of the compile command (test.py line 120) -/
  compileExit : Int
  /-- exit code of the run command (test.py line 147) -/
  runExit : Int
  /-- whether `int(getProperty("nooutput", "0")) == 1` (test.py line 163) -/
  nooutput : Bool
  /-- raw bytes of the test binary stdout -/
  runOutRaw : Str
  /-- raw bytes of the test binary stderr -/
  runErrRaw : Str
  /-- whether `<expectFile>_filter` exists (test.py line 150) -/
  hasOutFilter : Bool
  /-- raw stdout of the stdout filter script, as a function of its stdin -/
  outFilter : Str → Str
  /-- whether `<expectErrFile>_filter` exists -/
  hasErrFilter : Bool
  /-- raw stdout of the stderr filter script, as a function of its stdin -/
  errFilter : Str → Str
  /-- contents of the stdout expectation file before the case runs, `none`
  when absent or unreadable -/
  expect0 : Option Str
  /-- contents of the stderr expectation file, `none` when absent or
  unreadable (test.py line 193); never written by the script -/
  expectErr : Option Str

/-- The mutable state of one `TestCase`: its status, the streams captured at
EXECUTED, and the current contents of its stdout expectation file (mutable
because `store` writes it). -/
structure St where
  status : Status
  outResult : List Str
  errResult : List Str
  expectContent : Option Str
deriving Repr

/-- The state of a freshly constructed `TestCase` (test.py lines 60-74). -/
def initSt (env : Env) : St :=
  { status := .waiting, outResult := [], errResult := [], expectContent := env.expect0 }

/-- Result of one phase-method call: the state afterwards, the raised
signal if any, and the side effects performed during the call. -/
structure StepOut where
  st : St
  sig : Option Sig
  effs : List Effect
deriving Repr

/-- Model of `TestCase.compile` (test.py lines 83-127). -/
def compileStep (env : Env) (s : St) : StepOut :=
  if s.status ≠ Status.waiting then ⟨s, none, []⟩
  else if ¬ env.ccSupported then
    ⟨{ s with status := .failed }, some .fail, []⟩
  else if env.compileExit ≠ 0 then
    ⟨{ s with status := .failed }, some .fail, [.compilerProc]⟩
  else
    ⟨{ s with status := .compiled }, none, [.compilerProc]⟩

/-- One pass of a stream through a filter script (test.py lines 151-156):
the joined stream is piped into the script, whose stdout is split into lines
that each get a newline appended. -/
def filterViaScript (f : Str → Str) (input : List Str) : List Str :=
  (splitlines (f (List.flatten input))).map (fun l => l ++ ['\n'])

/-- The filter loop of `TestCase.run` (test.py lines 149-156), embedded
faithfully to the source: the loop variable `result` is the original stream
of each round, but the filtered lines are assigned to `outResult` in both
rounds, so an existing stderr filter script overwrites the stdout stream
with the filtered stderr, and `errResult` is never replaced. -/
def applyFilters (env : Env) (outR errR : List Str) : List Str × List Str :=
  let out1 := if env.hasOutFilter then filterViaScript env.outFilter outR else outR
  let out2 := if env.hasErrFilter then filterViaScript env.errFilter errR else out1
  (out2, errR)

/-- Model of `TestCase.run` (test.py lines 130-169).  A signal raised inside
`compile` propagates out of `run` unchanged. -/
def runStep (env : Env) (s : St) : StepOut :=
  let r := compileStep env s
  if r.sig.isSome then r
  else if r.st.status ≠ Status.compiled then r
  else
    let streams := applyFilters env (dbgLines env.runOutRaw) (dbgLines env.runErrRaw)
    let effs := r.effs ++ [Effect.runProc]
      ++ (if env.hasOutFilter then [Effect.outFilterProc] else [])
      ++ (if env.hasErrFilter then [Effect.errFilterProc] else [])
    if env.runExit ≠ 0 then ⟨{ r.st with status := .failed }, some .fail, effs⟩
    else if env.nooutput then ⟨{ r.st with status := .success }, none, effs⟩
    else
      let st2 := { r.st with status := Status.executed, outResult := streams.1, errResult := streams.2 }
      ⟨st2, none, effs⟩

/-- Model of `TestCase.test` (test.py lines 172-207).  Note the source bug on the
stderr path: the `raise TestFailException()` of line 201 sits inside the
`try` of line 192 whose blanket `except Exception` catches it, after which
line 207 sets SUCCESS, so a stderr mismatch neither keeps FAILED nor raises
out of the method. -/
def testStep (env : Env) (s : St) : StepOut :=
  let r := runStep env s
  if r.sig.isSome then r
  else if r.st.status ≠ Status.executed then r
  else
    match r.st.expectContent with
    | none => ⟨{ r.st with status := .ignored }, some .ignore, r.effs ++ [.comparePhase]⟩
    | some content =>
        if r.st.outResult ≠ pyReadlines content then
          ⟨{ r.st with status := .failed }, some .fail, r.effs ++ [.comparePhase]⟩
        else
          match env.expectErr with
          | none => ⟨{ r.st with status := .success }, none, r.effs ++ [.comparePhase]⟩
          | some errContent =>
              if r.st.errResult ≠ pyReadlines errContent then
                ⟨{ r.st with status := .success }, none, r.effs ++ [.comparePhase]⟩
              else
                ⟨{ r.st with status := .success }, none, r.effs ++ [.comparePhase]⟩

/-- Model of `TestCase.store` (test.py lines 211-220): write the captured stdout
lines verbatim to the expectation file, creating or overwriting it. -/
def storeStep (env : Env) (s : St) : StepOut :=
  let r := runStep env s
  if r.sig.isSome then r
  else if r.st.status ≠ Status.executed then r
  else
    let st2 := { r.st with status := Status.success, expectContent := some (List.flatten r.st.outResult) }
    ⟨st2, none, r.effs ++ [.storeWrite]⟩

/-- Model of `TestCase.printResult` (test.py lines 222-230). -/
def printResultStep (env : Env) (s : St) : StepOut :=
  let r := runStep env s
  if r.sig.isSome then r
  else if r.st.status ≠ Status.executed then r
  else ⟨{ r.st with status := .success }, none, r.effs ++ [.printOut]⟩

/-- The five public phase methods of `TestCase`. -/
inductive Phase
  | compile
  | run
  | test
  | store
  | printResult
deriving DecidableEq, Repr

def stepPhase (env : Env) (s : St) : Phase → StepOut
  | .compile => compileStep env s
  | .run => runStep env s
  | .test => testStep env s
  | .store => storeStep env s
  | .printResult => printResultStep env s

/-- Run a finite sequence of phase-method calls on one case, collecting all
side effects; raised signals are caught by the callers loop (test.py lines
263-275) and do not stop further calls. -/
def runTrace (env : Env) (s : St) : List Phase → St × List Effect
  | [] => (s, [])
  | p :: ps =>
      let o := stepPhase env s p
      let t := runTrace env o.st ps
      (t.1, o.effs ++ t.2)

structure CaseInput where
  srcLines : Option (List Str)
  driverLines : Option (List Str)
  env : Env

/-- Model of `TestCase.__init__` (test.py lines 60-74): fetch the source header, then
the driver header; `none` is an uncaught construction exception. -/
def construct (ci : CaseInput) : Option Unit :=
  match ci.srcLines with
  | none => none
  | some ls =>
      match fetchProperties ls [] with
      | none => none
      | some _ =>
          match ci.driverLines with
          | none => none
          | some dls =>
              match fetchProperties dls [] with
              | none => none
              | some _ => some ()

/-- The signal the default action (`TestCase.test`) raises for one case,
caught by the loop of test.py lines 263-275. -/
def caseSignal (ci : CaseInput) : Option Sig :=
  (testStep ci.env (initSt ci.env)).sig

/-- The `failed` list length of test.py lines 261-275. -/
def numFailed (cis : List CaseInput) : Nat :=
  (cis.filter (fun ci => caseSignal ci == some Sig.fail)).length

/-- The `ignored` list length of test.py lines 262-275. -/
def numIgnored (cis : List CaseInput) : Nat :=
  (cis.filter (fun ci => caseSignal ci == some Sig.ignore)).length

/-- The denominator of the final tally (test.py lines 279 and 282):
`len(testCases) - len(ignored)`. -/
def denominator (cis : List CaseInput) : Nat := cis.length - numIgnored cis

/-- The `__main__` driver under the default action: construct every case
up front (test.py line 259) - `none` when any construction raises, killing
the batch - then run each case and compute the process exit code
(test.py lines 277-287). -/
def mainRun (cis : List CaseInput) : Option (List (Option Sig) × Nat) :=
  if cis.all (fun ci => (construct ci).isSome) then
    some (cis.map caseSignal, if 0 < numFailed cis then 1 else 0)
  else none

/-- A world where everything succeeds and the program prints nothing. -/
def envTrivial : Env :=
  { ccSupported := true, compileExit := 0, runExit := 0, nooutput := false,
    runOutRaw := [], runErrRaw := [],
    hasOutFilter := false, outFilter := fun s => s,
    hasErrFilter := false, errFilter := fun s => s,
    expect0 := none, expectErr := none }

/-- A world with a stderr filter script but no stdout filter script
(exhibits the filter loop of test.py lines 149-156). -/
def envErrFilter : Env :=
  { envTrivial with
    runOutRaw := "hello".toList, runErrRaw := "err".toList,
    hasErrFilter := true, errFilter := fun _ => "FILTERED".toList }

/-- A world where stdout matches its expectation but stderr differs from an
existing stderr expectation (exhibits test.py lines 192-207). -/
def envErrMismatch : Env :=
  { envTrivial with
    runOutRaw := "a".toList, runErrRaw := "b".toList,
    expect0 := some "a\n".toList, expectErr := some "x\n".toList }

/-- A well-formed case whose source and driver have empty headers. -/
def ciGood : CaseInput :=
  { srcLines := some [], driverLines := some [], env := envTrivial }

/-- A case whose source file cannot be opened: `TestCase.__init__` raises. -/
def ciBadSrc : CaseInput :=
  { srcLines := none, driverLines := some [], env := envTrivial }

/-- A case that reaches EXECUTED with no expectation file: ignored. -/
def ciIgnored : CaseInput :=
  { srcLines := some [], driverLines := some [], env := envTrivial }

/-- The stdout stream a successful run captures (test.py lines 147-156),
after the debug filter and the filter-script loop. -/
def capturedOut (env : Env) : List Str :=
  (applyFilters env (dbgLines env.runOutRaw) (dbgLines env.runErrRaw)).1

/-- The stderr stream a successful run captures. -/
def capturedErr (env : Env) : List Str :=
  (applyFilters env (dbgLines env.runOutRaw) (dbgLines env.runErrRaw)).2

/-- The side effects of a run that reaches the exec call: the compiler, the
test binary, and each existing filter script. -/
def runEffs (env : Env) : List Effect :=
  [Effect.compilerProc] ++ [Effect.runProc]
    ++ (if env.hasOutFilter then [Effect.outFilterProc] else [])
    ++ (if env.hasErrFilter then [Effect.errFilterProc] else [])

/-- The side effects of the run body entered with an already-compiled case
(no fresh compiler invocation). -/
def runBodyEffs (env : Env) : List Effect :=
  [Effect.runProc]
    ++ (if env.hasOutFilter then [Effect.outFilterProc] else [])
    ++ (if env.hasErrFilter then [Effect.errFilterProc] else [])

/-- The three properties of one phase-method call that drive claim C1: the
status only moves forward, no effect is performed twice within the call, and
every effect fires from below its threshold rank and lands at or above it. -/
def stepOK (s : St) (o : StepOut) : Prop :=
  Status.leF s.status o.st.status
  ∧ (∀ e : Effect, List.count e o.effs ≤ 1)
  ∧ (∀ e ∈ o.effs, s.status.rank < e.thr ∧ e.thr ≤ o.st.status.rank)

/-! ## Properties -/

/-- Sanity checks of the two line-splitting models on concrete inputs. -/
theorem splitlines_sanity :
    splitlines "ab\ncd".toList = ["ab".toList, "cd".toList]
    ∧ splitlines "ab\r\ncd\n".toList = ["ab".toList, "cd".toList]
    ∧ splitlines "\n".toList = [[]]
    ∧ splitlines [] = []
    ∧ pyReadlines "ab\ncd".toList = ["ab\n".toList, "cd".toList]
    ∧ pyReadlines "ab\rcd\n".toList = ["ab\n".toList, "cd\n".toList] := by
  refine ⟨?_, ?_, ?_, ?_, ?_, ?_⟩ <;> decide

theorem splitlines_cons (c : Char) (rest : Str) (h1 : c ≠ '\n') (h2 : c ≠ '\r') :
    splitlines (c :: rest) = consHead c (splitlines rest) :=
  splitlines.eq_5 c rest (fun h => h1 h) (fun _ hc _ => h2 hc) (fun h => h2 h)

theorem splitlines_cr (rest : Str) (h : ∀ r, rest = '\n' :: r → False) :
    splitlines ('\r' :: rest) = [] :: splitlines rest :=
  splitlines.eq_4 rest h

theorem pyReadlines_cons (c : Char) (rest : Str) (h1 : c ≠ '\n') (h2 : c ≠ '\r') :
    pyReadlines (c :: rest) = consHead c (pyReadlines rest) :=
  pyReadlines.eq_5 c rest (fun h => h1 h) (fun _ hc _ => h2 hc) (fun h => h2 h)

theorem pyReadlines_cr (rest : Str) (h : ∀ r, rest = '\n' :: r → False) :
    pyReadlines ('\r' :: rest) = ['\n'] :: pyReadlines rest :=
  pyReadlines.eq_4 rest h

theorem mem_consHead (l : Str) (c : Char) (ls : List Str) (hl : l ∈ consHead c ls) :
    (ls = [] ∧ l = [c]) ∨ ∃ hd tl, ls = hd :: tl ∧ (l = c :: hd ∨ l ∈ tl) := by
  cases ls with
  | nil =>
      simp only [consHead] at hl
      rcases List.mem_cons.mp hl with h | h
      · exact Or.inl ⟨rfl, h⟩
      · cases h
  | cons hd tl =>
      simp only [consHead] at hl
      rcases List.mem_cons.mp hl with h | h
      · exact Or.inr ⟨hd, tl, rfl, Or.inl h⟩
      · exact Or.inr ⟨hd, tl, rfl, Or.inr h⟩

/-- Every line produced by `splitlines` is free of line terminators. -/
theorem splitlines_clean (s : Str) :
    ∀ l ∈ splitlines s, '\n' ∉ l ∧ '\r' ∉ l := by
  induction s using splitlines.induct with
  | case1 => intro l hl; cases hl
  | case2 rest ih =>
      intro l hl
      rw [splitlines.eq_2] at hl
      rcases List.mem_cons.mp hl with h | h
      · simp [h]
      · exact ih l h
  | case3 rest ih =>
      intro l hl
      rw [splitlines.eq_3] at hl
      rcases List.mem_cons.mp hl with h | h
      · simp [h]
      · exact ih l h
  | case4 rest hne ih =>
      intro l hl
      rw [splitlines_cr rest hne] at hl
      rcases List.mem_cons.mp hl with h | h
      · simp [h]
      · exact ih l h
  | case5 c rest h1 h2 h3 ih =>
      intro l hl
      rw [splitlines_cons c rest (fun h => h1 h) (fun h => h3 h)] at hl
      rcases mem_consHead l c _ hl with ⟨_, hll⟩ | ⟨hd, tl, hcons, hor⟩
      · subst hll
        constructor <;> intro hc <;> rcases List.mem_cons.mp hc with h | h
        · exact h1 h.symm
        · cases h
        · exact h3 h.symm
        · cases h
      · rcases hor with h | h
        · subst h
          have hhd := ih hd (by rw [hcons]; exact List.mem_cons_self hd tl)
          constructor <;> intro hc <;> rcases List.mem_cons.mp hc with h | h
          · exact h1 h.symm
          · exact hhd.1 h
          · exact h3 h.symm
          · exact hhd.2 h
        · exact ih l (by rw [hcons]; exact List.mem_cons_of_mem hd h)

theorem consHead_ne_nil (c : Char) (ls : List Str) : consHead c ls ≠ [] := by
  cases ls <;> simp [consHead]

theorem getLast?_cons_ne_nil (c : Char) (l : Str) (h : l ≠ []) :
    (c :: l).getLast? = l.getLast? := by
  cases l with
  | nil => exact absurd rfl h
  | cons b t => exact List.getLast?_cons_cons

theorem pyReadlines_seg (seg t : Str) (h1 : '\n' ∉ seg) (h2 : '\r' ∉ seg) :
    pyReadlines (seg ++ '\n' :: t) = (seg ++ ['\n']) :: pyReadlines t := by
  induction seg with
  | nil => simpa using pyReadlines.eq_2 t
  | cons c cs ih =>
      have hc1 : c ≠ '\n' := fun h => h1 (h ▸ List.mem_cons_self c cs)
      have hc2 : c ≠ '\r' := fun h => h2 (h ▸ List.mem_cons_self c cs)
      have h1' : '\n' ∉ cs := fun h => h1 (List.mem_cons_of_mem c h)
      have h2' : '\r' ∉ cs := fun h => h2 (List.mem_cons_of_mem c h)
      rw [List.cons_append, pyReadlines_cons c _ hc1 hc2, ih h1' h2']
      simp [consHead]

/-- Reading back a file whose content is the concatenation of
newline-terminated, terminator-free lines recovers exactly those lines.
This is the store-then-verify round trip at the level of file contents. -/
theorem pyReadlines_join (ls : List Str) (h : ∀ l ∈ ls, cleanLine l) :
    pyReadlines (List.flatten ls) = ls := by
  induction ls with
  | nil => rfl
  | cons l rest ih =>
      obtain ⟨seg, hl, h1, h2⟩ := h l (List.mem_cons_self l rest)
      subst hl
      rw [List.flatten_cons, List.append_assoc, List.singleton_append,
        pyReadlines_seg seg _ h1 h2,
        ih (fun x hx => h x (List.mem_cons_of_mem _ hx))]

theorem pyReadlines_ne_nil (s : Str) (hne : s ≠ []) : pyReadlines s ≠ [] := by
  induction s using pyReadlines.induct with
  | case1 => exact absurd rfl hne
  | case2 rest ih => rw [pyReadlines.eq_2]; exact List.cons_ne_nil _ _
  | case3 rest ih => rw [pyReadlines.eq_3]; exact List.cons_ne_nil _ _
  | case4 rest h ih => rw [pyReadlines_cr rest h]; exact List.cons_ne_nil _ _
  | case5 c rest h1 h2 h3 ih =>
      rw [pyReadlines_cons c rest (fun h => h1 h) (fun h => h3 h)]
      exact consHead_ne_nil c _

/-- If a file is nonempty and its final character is not a line terminator,
reading it back yields a last line that is not newline-terminated. -/
theorem pyReadlines_last_unterminated (s : Str) (hne : s ≠ [])
    (hn : s.getLast? ≠ some '\n') (hr : s.getLast? ≠ some '\r') :
    ∃ t ∈ pyReadlines s, t ≠ [] ∧ t.getLast? ≠ some '\n' := by
  induction s using pyReadlines.induct with
  | case1 => exact absurd rfl hne
  | case2 rest ih =>
      cases hrest : rest with
      | nil => rw [hrest, List.getLast?_singleton] at hn; exact absurd rfl hn
      | cons r1 r2 =>
          subst hrest
          rw [List.getLast?_cons_cons] at hn hr
          obtain ⟨t, ht, htne, htn⟩ := ih (List.cons_ne_nil r1 r2) hn hr
          refine ⟨t, ?_, htne, htn⟩
          rw [pyReadlines.eq_2]
          exact List.mem_cons_of_mem _ ht
  | case3 rest ih =>
      rw [List.getLast?_cons_cons] at hn hr
      cases hrest : rest with
      | nil => rw [hrest, List.getLast?_singleton] at hn; exact absurd rfl hn
      | cons r1 r2 =>
          subst hrest
          rw [List.getLast?_cons_cons] at hn hr
          obtain ⟨t, ht, htne, htn⟩ := ih (List.cons_ne_nil r1 r2) hn hr
          refine ⟨t, ?_, htne, htn⟩
          rw [pyReadlines.eq_3]
          exact List.mem_cons_of_mem _ ht
  | case4 rest h ih =>
      cases hrest : rest with
      | nil => rw [hrest, List.getLast?_singleton] at hr; exact absurd rfl hr
      | cons r1 r2 =>
          subst hrest
          rw [List.getLast?_cons_cons] at hn hr
          obtain ⟨t, ht, htne, htn⟩ := ih (List.cons_ne_nil r1 r2) hn hr
          refine ⟨t, ?_, htne, htn⟩
          rw [pyReadlines_cr _ h]
          exact List.mem_cons_of_mem _ ht
  | case5 c rest h1 h2 h3 ih =>
      have hc1 : c ≠ '\n' := fun h => h1 h
      have hc2 : c ≠ '\r' := fun h => h3 h
      cases hrest : rest with
      | nil =>
          refine ⟨[c], ?_, List.cons_ne_nil c [], ?_⟩
          · rw [pyReadlines_cons c [] hc1 hc2]
            simp [pyReadlines, consHead]
          · rw [List.getLast?_singleton]
            intro hc
            exact hc1 (Option.some.inj hc)
      | cons r1 r2 =>
          subst hrest
          rw [getLast?_cons_ne_nil c _ (List.cons_ne_nil r1 r2)] at hn hr
          obtain ⟨t, ht, htne, htn⟩ := ih (List.cons_ne_nil r1 r2) hn hr
          rw [pyReadlines_cons c _ hc1 hc2]
          cases hpr : pyReadlines (r1 :: r2) with
          | nil => exact absurd hpr (pyReadlines_ne_nil _ (List.cons_ne_nil r1 r2))
          | cons hd tl =>
              rw [hpr] at ht
              rcases List.mem_cons.mp ht with hth | hth
              · subst hth
                refine ⟨c :: t, ?_, List.cons_ne_nil c t, ?_⟩
                · simp [consHead]
                · rw [getLast?_cons_ne_nil c t htne]
                  exact htn
              · refine ⟨t, ?_, htne, htn⟩
                simp [consHead]
                exact Or.inr hth

theorem dbgFilterLoop_eq (raw : List Str) :
    dbgFilterLoop raw = (raw.filter (fun l => !isDbg l)).map (fun l => l ++ ['\n']) := by
  induction raw with
  | nil => rfl
  | cons out rest ih =>
      by_cases h : isDbg out = true
      · simp [dbgFilterLoop, h, ih]
      · simp [dbgFilterLoop, h, ih, List.filter_cons, Bool.not_eq_true] at *

/-- A line kept by the debug filter, once newline-terminated, still does not
carry the debug marker prefix. -/
theorem kept_line_no_dbg (l : Str) (h : isDbg l = false) :
    (l ++ ['\n']).take 4 ≠ dbgMarker := by
  rcases l with _ | ⟨a, _ | ⟨b, _ | ⟨c, _ | ⟨d, t⟩⟩⟩⟩
  · intro hc; exact absurd hc (by decide)
  · intro hc
    simp only [List.cons_append, List.nil_append, dbgMarker, List.take] at hc
    obtain ⟨_, hc⟩ := List.cons.inj hc
    exact absurd (List.cons.inj hc).1 (by decide)
  · intro hc
    simp only [List.cons_append, List.nil_append, dbgMarker, List.take] at hc
    obtain ⟨_, hc⟩ := List.cons.inj hc
    obtain ⟨_, hc⟩ := List.cons.inj hc
    exact absurd (List.cons.inj hc).1 (by decide)
  · intro hc
    simp only [List.cons_append, List.nil_append, dbgMarker, List.take] at hc
    obtain ⟨_, hc⟩ := List.cons.inj hc
    obtain ⟨_, hc⟩ := List.cons.inj hc
    obtain ⟨_, hc⟩ := List.cons.inj hc
    exact absurd (List.cons.inj hc).1 (by decide)
  · intro hc
    rw [List.take_append_of_le_length (by simp [List.length_cons])] at hc
    have hd : isDbg (a :: b :: c :: d :: t) = true := by
      unfold isDbg
      rw [hc]
      simp [List.length_cons, dbgMarker]
    rw [hd] at h
    cases h

/-- Every line in a debug-filtered stream is a kept raw line with a newline
appended, and none of them starts with the debug marker. -/
theorem dbgFilterLoop_no_dbg (raw : List Str) :
    ∀ l ∈ dbgFilterLoop raw, l.take 4 ≠ dbgMarker := by
  intro l hl
  rw [dbgFilterLoop_eq] at hl
  obtain ⟨x, hx, rfl⟩ := List.mem_map.mp hl
  have hxf := List.of_mem_filter hx
  exact kept_line_no_dbg x (by simpa using hxf)

/-- Every line of a debug-filtered stream is newline-terminated and free of
internal terminators. -/
theorem dbgLines_clean (raw : Str) : ∀ l ∈ dbgLines raw, cleanLine l := by
  intro l hl
  rw [dbgLines, dbgFilterLoop_eq] at hl
  obtain ⟨x, hx, rfl⟩ := List.mem_map.mp hl
  have hxm := List.mem_of_mem_filter hx
  obtain ⟨h1, h2⟩ := splitlines_clean raw x hxm
  exact ⟨x, rfl, h1, h2⟩

/-- Sanity checks of the property parser on concrete headers. -/
theorem fetchProperties_sanity :
    fetchProperties ["//!cc=gcc\n".toList, "//! Args = a b \n".toList, "int x;\n".toList] []
      = some [("cc".toList, "gcc".toList), ("args".toList, "a b".toList)]
    ∧ fetchProperties ["//x\n".toList, "//!cc=gcc\n".toList] [] = some [] := by
  refine ⟨?_, ?_⟩ <;> decide

theorem fetchProperties_spec_aux (file : List Str) :
    ∀ props, (∀ l ∈ file.takeWhile headerMatches, (splitEq (l.drop 3)).2.isSome) →
      fetchProperties file props =
        some ((file.takeWhile headerMatches).foldl
          (fun m l => insertProp m (keyOf l) (valOf l)) props) := by
  induction file with
  | nil => intro props _; rfl
  | cons line rest ih =>
      intro props h
      by_cases hm : headerMatches line = true
      · have hline := h line (by rw [List.takeWhile_cons_of_pos hm]; exact List.mem_cons_self _ _)
        rw [List.takeWhile_cons_of_pos hm]
        obtain ⟨v, hv⟩ := Option.isSome_iff_exists.mp hline
        rw [show fetchProperties (line :: rest) props =
              fetchProperties rest (insertProp props (keyOf line) (valOf line)) by
            simp only [fetchProperties, hm, if_true]
            rw [hv]]
        rw [List.foldl_cons]
        exact ih (insertProp props (keyOf line) (valOf line))
          (fun l hl => h l (by rw [List.takeWhile_cons_of_pos hm]; exact List.mem_cons_of_mem _ hl))
      · rw [List.takeWhile_cons_of_neg (by simpa using hm)]
        simp only [fetchProperties, hm, if_false, List.foldl_nil]
        simp [Bool.not_eq_true] at hm
        simp [hm]

theorem filterViaScript_clean (f : Str → Str) (input : List Str) :
    ∀ l ∈ filterViaScript f input, cleanLine l := by
  intro l hl
  unfold filterViaScript at hl
  obtain ⟨x, hx, rfl⟩ := List.mem_map.mp hl
  obtain ⟨h1, h2⟩ := splitlines_clean _ x hx
  exact ⟨x, rfl, h1, h2⟩

theorem capturedOut_clean (env : Env) : ∀ l ∈ capturedOut env, cleanLine l := by
  unfold capturedOut applyFilters
  by_cases h1 : env.hasErrFilter <;> by_cases h2 : env.hasOutFilter <;>
    simp only [h1, h2, if_true, if_false] <;>
    first
      | exact filterViaScript_clean _ _
      | exact dbgLines_clean _

theorem capturedErr_clean (env : Env) : ∀ l ∈ capturedErr env, cleanLine l :=
  dbgLines_clean _

theorem cleanLine_getLast (l : Str) (h : cleanLine l) : l.getLast? = some '\n' := by
  obtain ⟨seg, rfl, _, _⟩ := h
  exact List.getLast?_concat _

/-- A fresh case with a supported compiler, a zero compile exit, a zero run
exit and no `nooutput` property runs to EXECUTED and captures both streams. -/
theorem runStep_waiting_ok (env : Env) (s : St) (hs : s.status = Status.waiting)
    (h1 : env.ccSupported = true) (h2 : env.compileExit = 0)
    (h3 : env.runExit = 0) (h4 : env.nooutput = false) :
    runStep env s = ⟨⟨Status.executed, capturedOut env, capturedErr env,
        s.expectContent⟩, none, runEffs env⟩ := by
  unfold runStep compileStep
  simp [hs, h1, h2, h3, h4, capturedOut, capturedErr, runEffs]

/-- The three possible outcomes of `run` from a fresh state: a failure with
a raised fail signal, a direct SUCCESS under `nooutput`, or EXECUTED with
the captured streams; the expectation file is untouched throughout. -/
theorem runStep_init_cases (env : Env) :
    (∃ effs, runStep env (initSt env)
        = ⟨⟨Status.failed, [], [], env.expect0⟩, some Sig.fail, effs⟩)
    ∨ (env.nooutput = true ∧ runStep env (initSt env)
        = ⟨⟨Status.success, [], [], env.expect0⟩, none, runEffs env⟩)
    ∨ (env.nooutput = false ∧ runStep env (initSt env)
        = ⟨⟨Status.executed, capturedOut env, capturedErr env, env.expect0⟩,
            none, runEffs env⟩) := by
  by_cases h1 : env.ccSupported
  · by_cases h2 : env.compileExit = 0
    · by_cases h3 : env.runExit = 0
      · by_cases h4 : env.nooutput
        · refine Or.inr (Or.inl ⟨h4, ?_⟩)
          unfold runStep compileStep initSt
          simp [h1, h2, h3, h4, runEffs]
        · refine Or.inr (Or.inr ⟨by simp [h4], ?_⟩)
          have := runStep_waiting_ok env (initSt env) rfl h1 h2 h3 (by simp [h4])
          rw [this]
          rfl
      · refine Or.inl ⟨runEffs env, ?_⟩
        unfold runStep compileStep initSt
        simp [h1, h2, h3, runEffs]
    · refine Or.inl ⟨[Effect.compilerProc], ?_⟩
      unfold runStep compileStep initSt
      simp [h1, h2]
  · refine Or.inl ⟨[], ?_⟩
    unfold runStep compileStep initSt
    simp [h1]

theorem testStep_of_sig (env : Env) (s : St)
    (h : (runStep env s).sig.isSome) : testStep env s = runStep env s := by
  unfold testStep
  simp [h]

/-- C7: for every command executed through `Utils.execBuffered`, every
output line beginning with the fixed 4-character prefix `!DBG` is removed
from both the stdout and the stderr line sequences before they are returned
- the returned streams are exactly the non-marked raw lines, newline
terminated, and no returned line carries the marker prefix - regardless of
how such lines are interleaved with real output. -/
theorem C7_execBuffered_strips_dbg (code : Int) (rawOut rawErr : Str) :
    (execBuffered code rawOut rawErr).2.1
        = ((splitlines rawOut).filter (fun l => !isDbg l)).map (fun l => l ++ ['\n'])
    ∧ (execBuffered code rawOut rawErr).2.2
        = ((splitlines rawErr).filter (fun l => !isDbg l)).map (fun l => l ++ ['\n'])
    ∧ (∀ l ∈ (execBuffered code rawOut rawErr).2.1, l.take 4 ≠ dbgMarker)
    ∧ (∀ l ∈ (execBuffered code rawOut rawErr).2.2, l.take 4 ≠ dbgMarker) :=
  ⟨dbgFilterLoop_eq _, dbgFilterLoop_eq _,
    dbgFilterLoop_no_dbg _, dbgFilterLoop_no_dbg _⟩

theorem C7_execBuffered_strips_dbg_witness :
    (execBuffered 0 "ok\n!DBG trace\nmore".toList "!DBGe\n".toList).2.1
        = ["ok\n".toList, "more\n".toList]
    ∧ ∀ l ∈ (execBuffered 0 "ok\n!DBG trace\nmore".toList "!DBGe\n".toList).2.2,
        l.take 4 ≠ dbgMarker :=
  ⟨by decide, (C7_execBuffered_strips_dbg 0 "ok\n!DBG trace\nmore".toList "!DBGe\n".toList).2.2.2⟩

/-- C2 (code bug): the claim says each stream is filtered by its own filter
script and filtering one stream never alters the other.  In the source
(test.py lines 149-156) both loop rounds assign the filtered lines to
`outResult`, so with only a stderr filter script present the stdout stream
is replaced by the filtered stderr while the stderr stream stays unchanged.
In `envErrFilter` the program prints `hello` on stdout and `err` on stderr,
and the stderr filter script prints `FILTERED`; run leaves
`outResult = ["FILTERED\n"]` and `errResult = ["err\n"]`. -/
theorem C2_stderr_filter_overwrites_stdout :
    (runStep envErrFilter (initSt envErrFilter)).st.outResult = ["FILTERED\n".toList]
    ∧ (runStep envErrFilter (initSt envErrFilter)).st.errResult = ["err\n".toList]
    ∧ envErrFilter.hasOutFilter = false
    ∧ envErrFilter.hasErrFilter = true := by
  refine ⟨?_, ?_, rfl, rfl⟩ <;> decide

/-- C3 (code bug): stdout matches, a stderr expectation exists and differs
from the captured stderr, yet `test` finishes with status SUCCESS and raises
no fail signal: the `raise TestFailException()` of test.py line 201 is
caught by the blanket `except Exception` of line 204 and line 207 then sets
SUCCESS.  The claim says the status becomes FAILED and a fail signal is
raised. -/
theorem C3_stderr_mismatch_ends_success :
    (testStep envErrMismatch (initSt envErrMismatch)).st.status = Status.success
    ∧ (testStep envErrMismatch (initSt envErrMismatch)).sig = none
    ∧ (testStep envErrMismatch (initSt envErrMismatch)).st.errResult
        ≠ pyReadlines "x\n".toList
    ∧ (testStep envErrMismatch (initSt envErrMismatch)).st.outResult
        = pyReadlines "a\n".toList := by
  refine ⟨?_, ?_, ?_, ?_⟩ <;> decide

/-- C9 (counterexample): a header line that matches the comment marker but
has no `=` after it does not contribute a mapping entry - `split[1]` raises
IndexError and `fetchProperties` dies (modelled as `none`).  The claim says
every matching line, including lines without an `=`, contributes exactly one
entry. -/
theorem C9_no_equals_crashes :
    headerMatches "//!k\n".toList = true
    ∧ fetchProperties ["//!k\n".toList] [] = none := by
  refine ⟨?_, ?_⟩ <;> decide

/-- C9 (amended): for every file whose leading marker-matching lines all
contain an `=` after the marker, `fetchProperties` returns the mapping
obtained by folding those lines in order into the dict, each line
contributing the key `lower(trim(text before the first =))` and the value
`trim((text after the first =) minus its final character)` - for a
newline-terminated line that final character is the newline, so the value
is the trimmed text after the `=`; parsing stops at the first non-matching
line or at end of file.  A matching line without an `=` instead raises,
producing no mapping at all. -/
theorem C9_header_parsing_amended (file : List Str)
    (h : ∀ l ∈ hdrLines file, (splitEq (l.drop 3)).2.isSome) :
    fetchProperties file [] = some (specProps file) :=
  fetchProperties_spec_aux file [] h

theorem C9_header_parsing_amended_witness :
    (∀ l ∈ hdrLines ["//!CC = gcc\n".toList, "code\n".toList],
        (splitEq (l.drop 3)).2.isSome)
    ∧ fetchProperties ["//!CC = gcc\n".toList, "code\n".toList] []
        = some [("cc".toList, "gcc".toList)] := by
  refine ⟨by decide, ?_⟩
  rw [C9_header_parsing_amended ["//!CC = gcc\n".toList, "code\n".toList] (by decide)]
  decide

/-- C4 (counterexample): a batch holding one case whose source cannot be
opened and one perfectly fine case does not report the bad case as a
failure and continue - the construction comprehension of test.py line 259
runs before the per-case `try` loop, so the constructor exception kills the
whole batch (`mainRun = none`), while the good case alone would have run. -/
theorem C4_construction_error_kills_batch :
    mainRun [ciBadSrc, ciGood] = none
    ∧ (mainRun [ciGood]).isSome = true := by
  refine ⟨?_, ?_⟩ <;> decide

/-- C4 (amended): a construction error (unreadable source or driver, or a
crashing header) in any case of the batch aborts the entire batch before
any case is processed; per-case containment only applies to errors raised
by the selected action inside the loop of test.py lines 263-275. -/
theorem C4_construction_abort_amended (cis : List CaseInput)
    (h : ∃ ci ∈ cis, construct ci = none) : mainRun cis = none := by
  obtain ⟨ci, hm, hc⟩ := h
  unfold mainRun
  have hall : cis.all (fun ci => (construct ci).isSome) = false := by
    rw [List.all_eq_false]
    exact ⟨ci, hm, by simp [hc]⟩
  rw [hall]
  simp

theorem C4_construction_abort_amended_witness :
    mainRun [ciBadSrc] = none :=
  C4_construction_abort_amended [ciBadSrc]
    ⟨ciBadSrc, List.mem_singleton.mpr rfl, rfl⟩

/-- C6: for every batch whose cases all construct, the driver completes and
its process exit status is 1 exactly when at least one case signalled
failure, and 0 when no case did - ignored cases never influence it. -/
theorem C6_exit_code_iff_failure (cis : List CaseInput)
    (h : ∀ ci ∈ cis, (construct ci).isSome) :
    mainRun cis = some (cis.map caseSignal, if 0 < numFailed cis then 1 else 0)
    ∧ ((if 0 < numFailed cis then 1 else 0) ≠ 0
        ↔ ∃ ci ∈ cis, caseSignal ci = some Sig.fail)
    ∧ ((∀ ci ∈ cis, caseSignal ci ≠ some Sig.fail)
        → mainRun cis = some (cis.map caseSignal, 0)) := by
  have hall : cis.all (fun ci => (construct ci).isSome) = true := by
    rw [List.all_eq_true]; exact h
  have hmain : mainRun cis = some (cis.map caseSignal, if 0 < numFailed cis then 1 else 0) := by
    unfold mainRun; rw [hall]; simp
  have hiff : 0 < numFailed cis ↔ ∃ ci ∈ cis, caseSignal ci = some Sig.fail := by
    unfold numFailed
    rw [List.length_pos]
    constructor
    · intro hne
      obtain ⟨ci, hci⟩ := List.exists_mem_of_ne_nil _ hne
      have := List.mem_filter.mp hci
      exact ⟨ci, this.1, by simpa using this.2⟩
    · intro ⟨ci, hm, hs⟩
      intro hnil
      have : ci ∈ List.filter (fun ci => caseSignal ci == some Sig.fail) cis :=
        List.mem_filter.mpr ⟨hm, by simp [hs]⟩
      rw [hnil] at this
      cases this
  refine ⟨hmain, ?_, ?_⟩
  · constructor
    · intro hne
      rw [← hiff]
      by_contra hz
      simp [hz] at hne
    · intro hex
      have := hiff.mpr hex
      simp [this]
  · intro hnone
    have hzero : numFailed cis = 0 := by
      by_contra hz
      have hpos : 0 < numFailed cis := Nat.pos_of_ne_zero hz
      obtain ⟨ci, hm, hs⟩ := hiff.mp hpos
      exact hnone ci hm hs
    rw [hmain, hzero]
    simp

theorem C6_exit_code_iff_failure_witness :
    mainRun [ciGood] = some ([caseSignal ciGood], if 0 < numFailed [ciGood] then 1 else 0)
    ∧ ((if 0 < numFailed [ciGood] then 1 else 0) ≠ 0
        ↔ ∃ ci ∈ [ciGood], caseSignal ci = some Sig.fail) :=
  ⟨(C6_exit_code_iff_failure [ciGood] (by decide)).1,
    (C6_exit_code_iff_failure [ciGood] (by decide)).2.1⟩

/-- C5: a case that reaches EXECUTED (supported compiler, compile and run
exit 0, no `nooutput`) and has no stdout expectation file ends IGNORED -
never FAILED - with the ignore signal raised; it lands in the ignored list,
not the failed list, so it leaves the failure count alone and is subtracted
from the pass/fail denominator `len(testCases) - len(ignored)`. -/
theorem C5_no_expectation_ignored (ci : CaseInput)
    (h1 : ci.env.ccSupported = true) (h2 : ci.env.compileExit = 0)
    (h3 : ci.env.runExit = 0) (h4 : ci.env.nooutput = false)
    (h5 : ci.env.expect0 = none) :
    (testStep ci.env (initSt ci.env)).st.status = Status.ignored
    ∧ (testStep ci.env (initSt ci.env)).st.status ≠ Status.failed
    ∧ (testStep ci.env (initSt ci.env)).sig = some Sig.ignore
    ∧ caseSignal ci = some Sig.ignore
    ∧ numFailed [ci] = 0
    ∧ numIgnored [ci] = 1
    ∧ denominator [ci] = 0 := by
  have hrun := runStep_waiting_ok ci.env (initSt ci.env) rfl h1 h2 h3 h4
  have hexp : (initSt ci.env).expectContent = none := h5
  have htest : testStep ci.env (initSt ci.env)
      = ⟨⟨Status.ignored, capturedOut ci.env, capturedErr ci.env, none⟩,
          some Sig.ignore, runEffs ci.env ++ [Effect.comparePhase]⟩ := by
    unfold testStep
    rw [hrun]
    simp [hexp]
  refine ⟨by rw [htest], by rw [htest]; simp, by rw [htest], ?_, ?_, ?_, ?_⟩
  · unfold caseSignal; rw [htest]
  · unfold numFailed
    simp [caseSignal, htest]
  · unfold numIgnored
    simp [caseSignal, htest]
  · unfold denominator numIgnored
    simp [caseSignal, htest]

theorem C5_no_expectation_ignored_witness :
    (testStep ciIgnored.env (initSt ciIgnored.env)).st.status = Status.ignored
    ∧ (testStep ciIgnored.env (initSt ciIgnored.env)).sig = some Sig.ignore
    ∧ numFailed [ciIgnored] = 0 :=
  ⟨(C5_no_expectation_ignored ciIgnored rfl rfl rfl rfl rfl).1,
    (C5_no_expectation_ignored ciIgnored rfl rfl rfl rfl rfl).2.2.1,
    (C5_no_expectation_ignored ciIgnored rfl rfl rfl rfl rfl).2.2.2.2.1⟩

/-- C8: record-then-verify round trip.  For a case whose compile and run
phases succeed (deterministic world, so the second run reproduces the same
output), `store` writes the captured stdout lines verbatim to the
expectation file - creating or overwriting it - and ends SUCCESS, and a
subsequent `test` of the same case against that file also ends SUCCESS. -/
theorem C8_store_then_verify (env : Env)
    (h1 : env.ccSupported = true) (h2 : env.compileExit = 0)
    (h3 : env.runExit = 0) (h4 : env.nooutput = false) :
    (storeStep env (initSt env)).st.status = Status.success
    ∧ (storeStep env (initSt env)).st.expectContent
        = some (List.flatten (capturedOut env))
    ∧ (testStep env ⟨Status.waiting, [], [],
        (storeStep env (initSt env)).st.expectContent⟩).st.status
        = Status.success := by
  have hrun := runStep_waiting_ok env (initSt env) rfl h1 h2 h3 h4
  have hstore : storeStep env (initSt env)
      = ⟨⟨Status.success, capturedOut env, capturedErr env,
          some (List.flatten (capturedOut env))⟩, none,
          runEffs env ++ [Effect.storeWrite]⟩ := by
    unfold storeStep
    rw [hrun]
    rfl
  refine ⟨by rw [hstore], by rw [hstore], ?_⟩
  rw [hstore]
  have hrun2 := runStep_waiting_ok env
    ⟨Status.waiting, [], [], some (List.flatten (capturedOut env))⟩ rfl h1 h2 h3 h4
  have hcmp : pyReadlines (List.flatten (capturedOut env)) = capturedOut env :=
    pyReadlines_join _ (capturedOut_clean env)
  unfold testStep
  rw [hrun2]
  simp [hcmp]
  cases env.expectErr <;> rfl

theorem C8_store_then_verify_witness :
    (storeStep envTrivial (initSt envTrivial)).st.status = Status.success
    ∧ (testStep envTrivial ⟨Status.waiting, [], [],
        (storeStep envTrivial (initSt envTrivial)).st.expectContent⟩).st.status
        = Status.success :=
  ⟨(C8_store_then_verify envTrivial rfl rfl rfl rfl).1,
    (C8_store_then_verify envTrivial rfl rfl rfl rfl).2.2⟩

/-- C10: every line of the captured stdout and stderr streams - straight
from the buffered runner or replaced by a filter script - ends with a
newline, and consequently a verify that actually compares (`nooutput`
unset) can never end SUCCESS against an expectation file whose final line
lacks a trailing newline. -/
theorem C10_trailing_newline_invariant (env : Env) :
    (∀ l ∈ (runStep env (initSt env)).st.outResult, l.getLast? = some '\n')
    ∧ (∀ l ∈ (runStep env (initSt env)).st.errResult, l.getLast? = some '\n')
    ∧ (env.nooutput = false →
        ∀ content, env.expect0 = some content → content ≠ [] →
          content.getLast? ≠ some '\n' → content.getLast? ≠ some '\r' →
          (testStep env (initSt env)).st.status ≠ Status.success) := by
  refine ⟨?_, ?_, ?_⟩
  · rcases runStep_init_cases env with ⟨effs, heq⟩ | ⟨_, heq⟩ | ⟨_, heq⟩ <;>
      rw [heq] <;> intro l hl
    · cases hl
    · cases hl
    · exact cleanLine_getLast l (capturedOut_clean env l hl)
  · rcases runStep_init_cases env with ⟨effs, heq⟩ | ⟨_, heq⟩ | ⟨_, heq⟩ <;>
      rw [heq] <;> intro l hl
    · cases hl
    · cases hl
    · exact cleanLine_getLast l (capturedErr_clean env l hl)
  · intro h4 content hcontent hne hn hr
    rcases runStep_init_cases env with ⟨effs, heq⟩ | ⟨hno, _⟩ | ⟨_, heq⟩
    · rw [testStep_of_sig env (initSt env) (by rw [heq]; rfl), heq]
      simp
    · rw [h4] at hno; cases hno
    · obtain ⟨t, htm, htne, htn⟩ := pyReadlines_last_unterminated content hne hn hr
      have hneq : capturedOut env ≠ pyReadlines content := by
        intro he
        exact htn (cleanLine_getLast t (capturedOut_clean env t (he ▸ htm)))
      unfold testStep
      rw [heq]
      simp only [Option.isSome_none, Bool.false_eq_true, if_false]
      rw [hcontent]
      simp [hneq]

theorem C10_trailing_newline_invariant_witness :
    (∀ l ∈ (runStep envTrivial (initSt envTrivial)).st.outResult,
        l.getLast? = some '\n')
    ∧ (envTrivial.nooutput = false →
        ∀ content, envTrivial.expect0 = some content → content ≠ [] →
          content.getLast? ≠ some '\n' → content.getLast? ≠ some '\r' →
          (testStep envTrivial (initSt envTrivial)).st.status ≠ Status.success) :=
  ⟨(C10_trailing_newline_invariant envTrivial).1,
    (C10_trailing_newline_invariant envTrivial).2.2⟩

theorem leF_refl (a : Status) : Status.leF a a := Or.inl rfl

theorem leF_trans {a b c : Status} (h1 : Status.leF a b) (h2 : Status.leF b c) :
    Status.leF a c := by
  rcases h1 with rfl | h1
  · exact h2
  · rcases h2 with rfl | h2
    · exact Or.inr h1
    · exact Or.inr (lt_trans h1 h2)

theorem leF_rank_le {a b : Status} (h : Status.leF a b) : a.rank ≤ b.rank := by
  rcases h with rfl | h
  · exact le_refl _
  · exact le_of_lt h

theorem compileStep_cases (env : Env) (s : St) :
    (s.status ≠ Status.waiting ∧ compileStep env s = ⟨s, none, []⟩)
    ∨ (s.status = Status.waiting ∧ compileStep env s
        = ⟨⟨Status.failed, s.outResult, s.errResult, s.expectContent⟩, some Sig.fail, []⟩)
    ∨ (s.status = Status.waiting ∧ compileStep env s
        = ⟨⟨Status.failed, s.outResult, s.errResult, s.expectContent⟩, some Sig.fail,
            [Effect.compilerProc]⟩)
    ∨ (s.status = Status.waiting ∧ compileStep env s
        = ⟨⟨Status.compiled, s.outResult, s.errResult, s.expectContent⟩, none,
            [Effect.compilerProc]⟩) := by
  by_cases h1 : s.status = Status.waiting
  · by_cases h2 : env.ccSupported
    · by_cases h3 : env.compileExit = 0
      · refine Or.inr (Or.inr (Or.inr ⟨h1, ?_⟩))
        unfold compileStep
        simp [h1, h2, h3]
      · refine Or.inr (Or.inr (Or.inl ⟨h1, ?_⟩))
        unfold compileStep
        simp [h1, h2, h3]
    · refine Or.inr (Or.inl ⟨h1, ?_⟩)
      unfold compileStep
      simp [h1, h2]
  · refine Or.inl ⟨h1, ?_⟩
    unfold compileStep
    simp [h1]

theorem compileStep_ok (env : Env) (s : St) : stepOK s (compileStep env s) := by
  rcases compileStep_cases env s with ⟨h, heq⟩ | ⟨h, heq⟩ | ⟨h, heq⟩ | ⟨h, heq⟩ <;>
    rw [stepOK, heq] <;> dsimp only
  · exact ⟨leF_refl _, by simp, by simp⟩
  · refine ⟨Or.inr ?_, by simp, by simp⟩
    rw [h]; decide
  · refine ⟨Or.inr ?_, by decide, ?_⟩
    · rw [h]; decide
    · intro e he
      simp at he
      subst he
      rw [h]; exact ⟨by decide, by decide⟩
  · refine ⟨Or.inr ?_, by decide, ?_⟩
    · rw [h]; decide
    · intro e he
      simp at he
      subst he
      rw [h]; exact ⟨by decide, by decide⟩

theorem runStep_of_sig (env : Env) (s : St)
    (h : (compileStep env s).sig.isSome) : runStep env s = compileStep env s := by
  unfold runStep
  simp [h]

theorem runStep_of_not_compiled (env : Env) (s : St)
    (h1 : (compileStep env s).sig = none)
    (h2 : (compileStep env s).st.status ≠ Status.compiled) :
    runStep env s = compileStep env s := by
  unfold runStep
  simp [h1, h2]

theorem runBodyEffs_count (env : Env) : ∀ e : Effect, List.count e (runBodyEffs env) ≤ 1 := by
  unfold runBodyEffs
  by_cases h5 : env.hasOutFilter <;> by_cases h6 : env.hasErrFilter <;>
    simp only [h5, h6, if_true, if_false] <;> decide

theorem runBodyEffs_thr (env : Env) : ∀ e ∈ runBodyEffs env, e.thr = 2 := by
  unfold runBodyEffs
  by_cases h5 : env.hasOutFilter <;> by_cases h6 : env.hasErrFilter <;>
    simp only [h5, h6, if_true, if_false] <;> decide

theorem compilerProc_not_mem_runBodyEffs (env : Env) :
    Effect.compilerProc ∉ runBodyEffs env := by
  intro h
  have := runBodyEffs_thr env _ h
  simp [Effect.thr] at this

/-- The run body from a compiled state `t` (sub-proof shared by the two
entry paths into the body of `TestCase.run`). -/
theorem runStep_body (env : Env) (s : St) (pre : List Effect)
    (hpre : compileStep env s = ⟨{ s with status := Status.compiled }, none, pre⟩) :
    (env.runExit ≠ 0 ∧ runStep env s
        = ⟨⟨Status.failed, s.outResult, s.errResult, s.expectContent⟩, some Sig.fail,
            pre ++ runBodyEffs env⟩)
    ∨ (env.runExit = 0 ∧ env.nooutput = true ∧ runStep env s
        = ⟨⟨Status.success, s.outResult, s.errResult, s.expectContent⟩, none,
            pre ++ runBodyEffs env⟩)
    ∨ (env.runExit = 0 ∧ env.nooutput = false ∧ runStep env s
        = ⟨⟨Status.executed, capturedOut env, capturedErr env, s.expectContent⟩, none,
            pre ++ runBodyEffs env⟩) := by
  by_cases h3 : env.runExit = 0
  · by_cases h4 : env.nooutput
    · refine Or.inr (Or.inl ⟨h3, h4, ?_⟩)
      unfold runStep
      rw [hpre]
      simp [h3, h4, runBodyEffs]
    · refine Or.inr (Or.inr ⟨h3, by simp [h4], ?_⟩)
      unfold runStep
      rw [hpre]
      simp [h3, h4, runBodyEffs, capturedOut, capturedErr]
  · refine Or.inl ⟨h3, ?_⟩
    unfold runStep
    rw [hpre]
    simp [h3, runBodyEffs]

theorem runStep_ok (env : Env) (s : St) : stepOK s (runStep env s) := by
  rcases compileStep_cases env s with ⟨hw, heq⟩ | ⟨hw, heq⟩ | ⟨hw, heq⟩ | ⟨hw, heq⟩
  · by_cases hc : s.status = Status.compiled
    · have hpre : compileStep env s = ⟨{ s with status := Status.compiled }, none, []⟩ := by
        rw [heq, show ({ s with status := Status.compiled } : St) = s by rw [← hc]]
      rcases runStep_body env s [] hpre with ⟨h3, hr⟩ | ⟨h3, h4, hr⟩ | ⟨h3, h4, hr⟩ <;>
        rw [stepOK, hr] <;> dsimp only <;>
        refine ⟨Or.inr (by rw [hc]; decide), ?_, ?_⟩ <;>
        simp only [List.nil_append]
      · exact runBodyEffs_count env
      · intro e he
        have := runBodyEffs_thr env e he
        rw [hc, this]
        exact ⟨by decide, by decide⟩
      · exact runBodyEffs_count env
      · intro e he
        have := runBodyEffs_thr env e he
        rw [hc, this]
        exact ⟨by decide, by decide⟩
      · exact runBodyEffs_count env
      · intro e he
        have := runBodyEffs_thr env e he
        rw [hc, this]
        exact ⟨by decide, by decide⟩
    · have hr : runStep env s = compileStep env s :=
        runStep_of_not_compiled env s (by rw [heq]) (by rw [heq]; exact hc)
      rw [hr]
      exact compileStep_ok env s
  · have hr : runStep env s = compileStep env s := runStep_of_sig env s (by rw [heq]; rfl)
    rw [hr]
    exact compileStep_ok env s
  · have hr : runStep env s = compileStep env s := runStep_of_sig env s (by rw [heq]; rfl)
    rw [hr]
    exact compileStep_ok env s
  · have hpre : compileStep env s = ⟨{ s with status := Status.compiled }, none,
        [Effect.compilerProc]⟩ := heq
    rcases runStep_body env s [Effect.compilerProc] hpre with
        ⟨h3, hr⟩ | ⟨h3, h4, hr⟩ | ⟨h3, h4, hr⟩ <;>
      rw [stepOK, hr] <;> dsimp only <;>
      refine ⟨Or.inr (by rw [hw]; decide), ?_, ?_⟩
    · intro e
      rw [List.count_append]
      have h1 := runBodyEffs_count env e
      have h2 : List.count e [Effect.compilerProc] ≤ 1 := by
        simp [List.count_cons]
        split <;> omega
      by_cases hce : e = Effect.compilerProc
      · subst hce
        have : List.count Effect.compilerProc (runBodyEffs env) = 0 :=
          List.count_eq_zero.mpr (compilerProc_not_mem_runBodyEffs env)
        omega
      · have : List.count e [Effect.compilerProc] = 0 :=
          List.count_eq_zero.mpr (by simp [hce])
        omega
    · intro e he
      rcases List.mem_append.mp he with he1 | he2
      · simp at he1
        subst he1
        rw [hw]
        exact ⟨by decide, by decide⟩
      · have := runBodyEffs_thr env e he2
        rw [hw, this]
        exact ⟨by decide, by decide⟩
    · intro e
      rw [List.count_append]
      have h1 := runBodyEffs_count env e
      by_cases hce : e = Effect.compilerProc
      · subst hce
        have : List.count Effect.compilerProc (runBodyEffs env) = 0 :=
          List.count_eq_zero.mpr (compilerProc_not_mem_runBodyEffs env)
        simp [this, List.count_cons]
      · have : List.count e [Effect.compilerProc] = 0 :=
          List.count_eq_zero.mpr (by simp [hce])
        omega
    · intro e he
      rcases List.mem_append.mp he with he1 | he2
      · simp at he1
        subst he1
        rw [hw]
        exact ⟨by decide, by decide⟩
      · have := runBodyEffs_thr env e he2
        rw [hw, this]
        exact ⟨by decide, by decide⟩
    · intro e
      rw [List.count_append]
      have h1 := runBodyEffs_count env e
      by_cases hce : e = Effect.compilerProc
      · subst hce
        have : List.count Effect.compilerProc (runBodyEffs env) = 0 :=
          List.count_eq_zero.mpr (compilerProc_not_mem_runBodyEffs env)
        simp [this, List.count_cons]
      · have : List.count e [Effect.compilerProc] = 0 :=
          List.count_eq_zero.mpr (by simp [hce])
        omega
    · intro e he
      rcases List.mem_append.mp he with he1 | he2
      · simp at he1
        subst he1
        rw [hw]
        exact ⟨by decide, by decide⟩
      · have := runBodyEffs_thr env e he2
        rw [hw, this]
        exact ⟨by decide, by decide⟩

/-- A phase that guards on EXECUTED, performs one rank-3 effect and lands on
a terminal status satisfies the one-shot properties whenever the run it
chains to does. -/
theorem stepOK_post (s : St) (r o : StepOut) (e0 : Effect)
    (hro : stepOK s r) (hex : r.st.status = Status.executed)
    (ho : o.effs = r.effs ++ [e0]) (hth : e0.thr = 3)
    (hrank : o.st.status.rank = 3) : stepOK s o := by
  obtain ⟨hle, hcnt, hmem⟩ := hro
  have hsr : s.status.rank ≤ 2 := by
    have := leF_rank_le hle
    rw [hex] at this
    exact this
  refine ⟨?_, ?_, ?_⟩
  · rcases hle with he | hlt
    · right
      rw [← he] at hex
      rw [hex, hrank]
      decide
    · right
      have h2 : s.status.rank < 2 := hlt.trans_le (le_of_eq (by rw [hex]; rfl))
      rw [hrank]
      omega
  · intro e
    rw [ho, List.count_append]
    have h1 := hcnt e
    by_cases hce : e = e0
    · subst hce
      have : List.count e r.effs = 0 := by
        rw [List.count_eq_zero]
        intro hm
        have := (hmem e hm).2
        rw [hex, hth] at this
        exact absurd this (by decide)
      simp [this, List.count_cons]
    · have : List.count e [e0] = 0 :=
        List.count_eq_zero.mpr (by simp [hce])
      omega
  · intro e he
    rw [ho] at he
    rcases List.mem_append.mp he with h1 | h2
    · obtain ⟨ha, hb⟩ := hmem e h1
      rw [hex] at hb
      have hb2 : e.thr ≤ 2 := hb
      rw [hrank]
      exact ⟨ha, by omega⟩
    · simp at h2
      subst h2
      rw [hth, hrank]
      exact ⟨by omega, by omega⟩

theorem testStep_shape (env : Env) (s : St) :
    testStep env s = runStep env s
    ∨ ((runStep env s).st.status = Status.executed
        ∧ (testStep env s).effs = (runStep env s).effs ++ [Effect.comparePhase]
        ∧ (testStep env s).st.status.rank = 3) := by
  unfold testStep
  by_cases h1 : (runStep env s).sig.isSome
  · left; simp [h1]
  · by_cases h2 : (runStep env s).st.status = Status.executed
    · right
      refine ⟨h2, ?_⟩
      simp only [h1, if_false, h2, ne_eq, not_true_eq_false, Bool.false_eq_true]
      cases hec : (runStep env s).st.expectContent with
      | none => simp [Status.rank]
      | some content =>
          simp only
          split
          · simp [Status.rank]
          · cases env.expectErr with
            | none => simp [Status.rank]
            | some ec =>
                simp only
                split <;> simp [Status.rank]
    · left; simp [h1, h2]

theorem storeStep_shape (env : Env) (s : St) :
    storeStep env s = runStep env s
    ∨ ((runStep env s).st.status = Status.executed
        ∧ (storeStep env s).effs = (runStep env s).effs ++ [Effect.storeWrite]
        ∧ (storeStep env s).st.status.rank = 3) := by
  unfold storeStep
  by_cases h1 : (runStep env s).sig.isSome
  · left; simp [h1]
  · by_cases h2 : (runStep env s).st.status = Status.executed
    · right
      refine ⟨h2, ?_⟩
      simp [h1, h2, Status.rank]
    · left; simp [h1, h2]

theorem printResultStep_shape (env : Env) (s : St) :
    printResultStep env s = runStep env s
    ∨ ((runStep env s).st.status = Status.executed
        ∧ (printResultStep env s).effs = (runStep env s).effs ++ [Effect.printOut]
        ∧ (printResultStep env s).st.status.rank = 3) := by
  unfold printResultStep
  by_cases h1 : (runStep env s).sig.isSome
  · left; simp [h1]
  · by_cases h2 : (runStep env s).st.status = Status.executed
    · right
      refine ⟨h2, ?_⟩
      simp [h1, h2, Status.rank]
    · left; simp [h1, h2]

theorem stepPhase_ok (env : Env) (s : St) (p : Phase) :
    stepOK s (stepPhase env s p) := by
  cases p with
  | compile => exact compileStep_ok env s
  | run => exact runStep_ok env s
  | test =>
      rcases testStep_shape env s with h | ⟨hex, heff, hrank⟩
      · rw [stepPhase, h]
        exact runStep_ok env s
      · exact stepOK_post s (runStep env s) (testStep env s) Effect.comparePhase
          (runStep_ok env s) hex heff rfl hrank
  | store =>
      rcases storeStep_shape env s with h | ⟨hex, heff, hrank⟩
      · rw [stepPhase, h]
        exact runStep_ok env s
      · exact stepOK_post s (runStep env s) (storeStep env s) Effect.storeWrite
          (runStep_ok env s) hex heff rfl hrank
  | printResult =>
      rcases printResultStep_shape env s with h | ⟨hex, heff, hrank⟩
      · rw [stepPhase, h]
        exact runStep_ok env s
      · exact stepOK_post s (runStep env s) (printResultStep env s) Effect.printOut
          (runStep_ok env s) hex heff rfl hrank

theorem runTrace_append (env : Env) (s : St) (ps qs : List Phase) :
    runTrace env s (ps ++ qs)
      = ((runTrace env (runTrace env s ps).1 qs).1,
          (runTrace env s ps).2 ++ (runTrace env (runTrace env s ps).1 qs).2) := by
  induction ps generalizing s with
  | nil => simp [runTrace]
  | cons p ps ih =>
      simp only [List.cons_append, runTrace, List.append_eq]
      rw [ih]
      simp [List.append_assoc]

theorem runTrace_leF (env : Env) (s : St) (ps : List Phase) :
    Status.leF s.status (runTrace env s ps).1.status := by
  induction ps generalizing s with
  | nil => exact leF_refl _
  | cons p ps ih =>
      simp only [runTrace]
      exact leF_trans (stepPhase_ok env s p).1 (ih _)

theorem runTrace_count (env : Env) (s : St) (ps : List Phase) (e : Effect) :
    List.count e (runTrace env s ps).2
      ≤ if e.thr ≤ s.status.rank then 0 else 1 := by
  induction ps generalizing s with
  | nil => simp [runTrace]
  | cons p ps ih =>
      simp only [runTrace, List.count_append]
      obtain ⟨hle, hcnt, hmem⟩ := stepPhase_ok env s p
      by_cases hth : e.thr ≤ s.status.rank
      · have h0 : List.count e (stepPhase env s p).effs = 0 := by
          rw [List.count_eq_zero]
          intro hm
          exact absurd (hmem e hm).1 (not_lt.mpr hth)
        have h1 : e.thr ≤ (stepPhase env s p).st.status.rank :=
          le_trans hth (leF_rank_le hle)
        have hrest := ih (stepPhase env s p).st
        rw [if_pos h1] at hrest
        rw [if_pos hth, h0]
        omega
      · rw [if_neg hth]
        by_cases hin : e ∈ (stepPhase env s p).effs
        · have h1 : e.thr ≤ (stepPhase env s p).st.status.rank := (hmem e hin).2
          have hrest := ih (stepPhase env s p).st
          rw [if_pos h1] at hrest
          have := hcnt e
          omega
        · have h0 : List.count e (stepPhase env s p).effs = 0 :=
            List.count_eq_zero.mpr hin
          have hrest := ih (stepPhase env s p).st
          have hb : (if e.thr ≤ (stepPhase env s p).st.status.rank then 0 else 1) ≤ 1 := by
            split <;> omega
          omega

/-- C1: along every finite sequence of phase-method calls on a fresh
TestCase, the status only ever moves forward in the order
WAITING < COMPILED < EXECUTED < (SUCCESS | FAILED | IGNORED) - extending
the call sequence leaves the status unchanged or strictly later in that
order, so a terminal status never changes - and every side effect
(compiler subprocess, test-binary subprocess, each filter subprocess,
comparison, store-write, print) is performed at most once over the whole
sequence, however often and however indirectly the phases are invoked. -/
theorem C1_status_monotone_effects_once (env : Env) (ps qs : List Phase) :
    Status.leF (runTrace env (initSt env) ps).1.status
      (runTrace env (initSt env) (ps ++ qs)).1.status
    ∧ ∀ e : Effect, List.count e (runTrace env (initSt env) (ps ++ qs)).2 ≤ 1 := by
  constructor
  · rw [runTrace_append]
    exact runTrace_leF env _ qs
  · intro e
    have h := runTrace_count env (initSt env) (ps ++ qs) e
    have hthr : ¬ e.thr ≤ (initSt env).status.rank := by
      have h0 : (initSt env).status = Status.waiting := rfl
      rw [h0]
      cases e <;> decide
    rw [if_neg hthr] at h
    exact h

end DbrewTest
